import Mathlib

/-!
Shallow embedding of `wave.py` (DART buoy fetch-and-plot script).

The network layer (`requests.get`, lines 25-30) is out of scope: the parser
`fetch_dart_data` is modelled as a function of the already-retrieved response
text.  Heights (`float(...)`) are modelled as exact rationals obtained from
Python's decimal float-literal syntax (the `inf`/`nan`/underscore forms of
`float()` are outside the data domain and not modelled); timestamps
(`pd.to_datetime`) are modelled as validated calendar date-times (the pandas
representable-range bound of years 1677-2262 is abstracted away).  Python's
`str.splitlines` is modelled as splitting on a newline character; a carriage
return is whitespace and is removed by the subsequent `strip`, matching the
source's behaviour on CRLF input.  `DataFrame.sort_index` is modelled as an
insertion sort by timestamp; pandas' default `kind='quicksort'` determines
the sorted key order but not the relative order of rows sharing a
timestamp, and no theorem below depends on that tie order.
`df.index.duplicated(keep='first')` is modelled as keeping the first row of
every timestamp in the sorted frame.
-/

/-- The whitespace characters recognised by Python's `str.strip()` /
`str.split()` in the ASCII range. -/
def pyWhite (c : Char) : Bool :=
  c = ' ' || c = '\t' || c = '\n' || c = '\r' || c = '\x0b' || c = '\x0c'

/-- Split a character list at every character satisfying `p`; consecutive
separators produce empty groups (the groups are the maximal separator-free
runs, with empties recording adjacent separators). -/
def splitBy (p : Char → Bool) : List Char → List (List Char)
  | [] => [[]]
  | c :: cs =>
    if p c then [] :: splitBy p cs
    else
      match splitBy p cs with
      | [] => [[c]]
      | g :: gs => (c :: g) :: gs

/-- Python `str.split()` with no argument: split on whitespace runs and drop
empty fields. -/
def tokenize (s : List Char) : List (List Char) :=
  (splitBy pyWhite s).filter (fun t => !t.isEmpty)

/-- Python `str.splitlines()` (modelled as splitting on newline; see header
note on CRLF). -/
def splitlines (s : List Char) : List (List Char) :=
  splitBy (fun c => c = '\n') s

/-- Python `str.strip()`, left half: drop leading whitespace. -/
def lstrip (s : List Char) : List Char := s.dropWhile pyWhite

/-- Python `str.strip()`, right half: drop trailing whitespace. -/
def rstrip (s : List Char) : List Char := (s.reverse.dropWhile pyWhite).reverse

/-- Python `str.strip()`. -/
def pyStrip (s : List Char) : List Char := rstrip (lstrip s)

/-- Numeric value of a digit list read in base 10 (`int`-style). -/
def natOfDigits (s : List Char) : Nat :=
  s.foldl (fun a c => a * 10 + (c.toNat - '0'.toNat)) 0

/-- Test for `re.fullmatch(r'\d{14}', t)`: exactly 14 decimal digits. -/
def isDigits14 (t : List Char) : Bool :=
  decide (t.length = 14) && t.all Char.isDigit

/-- Test for `re.fullmatch(r'\d+', t)`: one or more decimal digits. -/
def isDigitsNE (t : List Char) : Bool :=
  (!t.isEmpty) && t.all Char.isDigit

/-- Mantissa of a Python float literal (`digits`, `digits.`, `digits.digits`
or `.digits`), as a numerator/denominator pair of naturals. -/
def parseMantissa (m : List Char) : Option (Nat × Nat) :=
  let ip := m.takeWhile Char.isDigit
  let rest := m.dropWhile Char.isDigit
  match rest with
  | [] => if ip.isEmpty then none else some (natOfDigits ip, 1)
  | '.' :: frac =>
    if frac.all Char.isDigit ∧ ¬(ip.isEmpty ∧ frac.isEmpty) then
      some (natOfDigits ip * 10 ^ frac.length + natOfDigits frac,
            10 ^ frac.length)
    else none
  | _ => none

/-- Digits of an exponent part (at least one required). -/
def parseExpDigits (ds : List Char) : Option Nat :=
  if (!ds.isEmpty) && ds.all Char.isDigit then some (natOfDigits ds) else none

/-- Exponent suffix of a Python float literal: empty, or `e`/`E` followed by
an optionally signed digit string. The leading character has already been
identified as `e`/`E` by the caller's split. -/
def parseExpPart : List Char → Option ℤ
  | [] => some 0
  | _ :: rest =>
    match rest with
    | '+' :: ds => (parseExpDigits ds).map (fun n => (n : ℤ))
    | '-' :: ds => (parseExpDigits ds).map (fun n => -(n : ℤ))
    | ds => (parseExpDigits ds).map (fun n => (n : ℤ))

/-- Unsigned part of Python `float(...)` on a finite decimal literal. -/
def pyFloatUnsigned (s : List Char) : Option ℚ :=
  let isE : Char → Bool := fun c => c = 'e' || c = 'E'
  let mant := s.takeWhile (fun c => !isE c)
  let rest := s.dropWhile (fun c => !isE c)
  match parseMantissa mant, parseExpPart rest with
  | some (n, d), some e =>
    match e with
    | .ofNat k => some (mkRat (n * 10 ^ k) d)
    | .negSucc k => some (mkRat n (d * 10 ^ (k + 1)))
  | _, _ => none

/-- Python `float(token)` on a finite decimal literal, as an exact rational;
`none` models a raised `ValueError`. -/
def pyFloat (t : List Char) : Option ℚ :=
  match t with
  | '+' :: rest => pyFloatUnsigned rest
  | '-' :: rest => (pyFloatUnsigned rest).map Rat.neg
  | _ => pyFloatUnsigned t

/-- A UTC calendar date-time (the index values of the station table). -/
structure DateTime where
  year : Nat
  month : Nat
  day : Nat
  hour : Nat
  minute : Nat
  second : Nat
deriving DecidableEq, Repr

/-- Gregorian leap-year rule. -/
def isLeapYear (y : Nat) : Bool :=
  y % 4 = 0 && (y % 100 ≠ 0 || y % 400 = 0)

/-- Number of days in a month of a given year. -/
def daysInMonth (y m : Nat) : Nat :=
  if m = 2 then (if isLeapYear y then 29 else 28)
  else if m = 4 ∨ m = 6 ∨ m = 9 ∨ m = 11 then 30
  else 31

/-- Calendar validity of a date-time (what `pd.to_datetime` accepts for the
field values). -/
def validDT (d : DateTime) : Bool :=
  decide (1 ≤ d.month) && decide (d.month ≤ 12) &&
  decide (1 ≤ d.day) && decide (d.day ≤ daysInMonth d.year d.month) &&
  decide (d.hour ≤ 23) && decide (d.minute ≤ 59) && decide (d.second ≤ 59)

/-- Build a date-time, failing (like a raising `pd.to_datetime`) on invalid
calendar fields. -/
def mkDT (y mo d h mi s : Nat) : Option DateTime :=
  let dt : DateTime := ⟨y, mo, d, h, mi, s⟩
  if validDT dt then some dt else none

/-- Model of `pd.to_datetime(t, format='%Y%m%d%H%M%S', utc=True)` on a
14-digit token. -/
def toDatetime14 (t : List Char) : Option DateTime :=
  mkDT (natOfDigits (t.take 4))
       (natOfDigits ((t.drop 4).take 2))
       (natOfDigits ((t.drop 6).take 2))
       (natOfDigits ((t.drop 8).take 2))
       (natOfDigits ((t.drop 10).take 2))
       (natOfDigits ((t.drop 12).take 2))

/-- Model of `pd.to_datetime` on the space-joined `parts[0:6]` with format
`%Y %m %d %H %M %S`: `%Y` consumes 1-4 digits and each other directive 1-2 digits, so
a token longer than its directive makes the format mismatch and raise. -/
def toDatetimeSplit (toks : List (List Char)) : Option DateTime :=
  match toks with
  | [t0, t1, t2, t3, t4, t5] =>
    if 1 ≤ t0.length ∧ t0.length ≤ 4 ∧
       1 ≤ t1.length ∧ t1.length ≤ 2 ∧
       1 ≤ t2.length ∧ t2.length ≤ 2 ∧
       1 ≤ t3.length ∧ t3.length ≤ 2 ∧
       1 ≤ t4.length ∧ t4.length ≤ 2 ∧
       1 ≤ t5.length ∧ t5.length ≤ 2 then
      mkDT (natOfDigits t0) (natOfDigits t1) (natOfDigits t2)
           (natOfDigits t3) (natOfDigits t4) (natOfDigits t5)
    else none
  | _ => none

/-- Chronological key of a date-time: the `YYYYMMDDHHMMSS` value.  On valid
date-times this encoding is injective and order-preserving. -/
def DateTime.key (d : DateTime) : Nat :=
  ((((d.year * 100 + d.month) * 100 + d.day) * 100 + d.hour) * 100 + d.minute)
      * 100 + d.second

/-- Outcome of the body of the `for line in resp.text.splitlines()` loop on
one line.  `indexErr` is the (never-taken, see the safety theorem) outcome of
an out-of-bounds `parts[...]` access; `tsErr` and `heightErr` are exceptions
raised by `pd.to_datetime` and `float` respectively. -/
inductive LineOutcome
  | skip
  | record (ts : DateTime) (h : ℚ)
  | tsErr
  | heightErr
  | indexErr
deriving DecidableEq, Repr

/-- Case A (lines 40-42): `ts = to_datetime(parts[0])`, `height =
float(parts[1])`. -/
def caseA (parts : List (List Char)) : LineOutcome :=
  match parts.head?, parts[1]? with
  | some p0, some p1 =>
    match toDatetime14 p0 with
    | none => .tsErr
    | some ts =>
      match pyFloat p1 with
      | none => .heightErr
      | some h => .record ts h
  | _, _ => .indexErr

/-- Case B (lines 45-48): `ts = to_datetime(' '.join(parts[0:6]))`,
`height = float(parts[6])`. -/
def caseB (parts : List (List Char)) : LineOutcome :=
  match parts[6]? with
  | some p6 =>
    match toDatetimeSplit (parts.take 6) with
    | none => .tsErr
    | some ts =>
      match pyFloat p6 with
      | none => .heightErr
      | some h => .record ts h
  | none => .indexErr

/-- One iteration of the parsing loop (lines 33-54): strip, skip blanks and
`#` comments, split into tokens, then the Case A / Case B / skip chain. -/
def parseLine (raw : List Char) : LineOutcome :=
  match pyStrip raw with
  | [] => .skip
  | c :: rest =>
    if c = '#' then .skip
    else
      let parts := tokenize (c :: rest)
      match parts.head? with
      | none => .indexErr
      | some p0 =>
        if isDigits14 p0 = true ∧ 2 ≤ parts.length then caseA parts
        else if 7 ≤ parts.length ∧ (parts.take 6).all isDigitsNE = true then
          caseB parts
        else .skip

/-- An exception aborting the whole parse of one station's text. -/
inductive ParseError
  | badTimestamp
  | badHeight
  | indexOOB
deriving DecidableEq, Repr

/-- The record-collection loop (lines 32-54): records accumulate in line
order; the first raising line aborts the whole loop with its exception. -/
def parseLines : List (List Char) → Except ParseError (List (DateTime × ℚ))
  | [] => .ok []
  | l :: ls =>
    match parseLine l with
    | .skip => parseLines ls
    | .record ts h =>
      match parseLines ls with
      | .ok r => .ok ((ts, h) :: r)
      | .error e => .error e
    | .tsErr => .error .badTimestamp
    | .heightErr => .error .badHeight
    | .indexErr => .error .indexOOB

/-- A station table: readings in index order. -/
abbrev Table := List (DateTime × ℚ)

/-- Insertion by chronological key; the inserted element lands before every
already-placed element of equal key. -/
def insertByKey {α : Type} (key : α → Nat) (r : α) : List α → List α
  | [] => [r]
  | x :: xs =>
    if key r ≤ key x then r :: x :: xs else x :: insertByKey key r xs

/-- Sort by chronological key: the model of `.sort_index()` on the
timestamp index.  The sorted key order is what `sort_index` guarantees; the
relative order this particular sort gives rows of equal timestamp is not
guaranteed by pandas' default `kind='quicksort'`, and no theorem below
relies on it. -/
def sortByKey {α : Type} (key : α → Nat) (l : List α) : List α :=
  l.foldr (insertByKey key) []

/-- Model of `df[~df.index.duplicated(keep='first')]` given the already-seen
keys:
keep a row only if its timestamp has not occurred before. -/
def dropDupAux : List Nat → Table → Table
  | _, [] => []
  | seen, (ts, h) :: rest =>
    if ts.key ∈ seen then dropDupAux seen rest
    else (ts, h) :: dropDupAux (ts.key :: seen) rest

/-- Model of `df[~df.index.duplicated(keep='first')]` (line 64). -/
def dropDupFirst (t : Table) : Table := dropDupAux [] t

/-- Lines 59-64: index by timestamp, sort ascending, drop duplicate
timestamps keeping the first. -/
def buildTable (recs : Table) : Table :=
  dropDupFirst (sortByKey (fun r => r.1.key) recs)

/-- Failure modes of one station's fetch, as caught by `main`'s
`except Exception` (line 90).  `transport` stands for the HTTP-layer errors
raised before parsing begins. -/
inductive FetchError
  | transport (status : Nat)
  | noData (stationId : String)
  | parseFail (e : ParseError)
deriving DecidableEq, Repr

/-- The body of `fetch_dart_data` (lines 32-66), as a function of the
response text: parse
every line, raise `ValueError` (here `noData`) when no record matched, else
return the sorted, deduplicated table. -/
def fetch_dart_data (stationId : String) (respText : String) :
    Except FetchError Table :=
  match parseLines (splitlines respText.toList) with
  | .error e => .error (.parseFail e)
  | .ok recs =>
    if recs.isEmpty then .error (.noData stationId) else .ok (buildTable recs)

/-- Whether an `Except` is a success. -/
def exceptIsOk {ε α : Type} : Except ε α → Bool
  | .ok _ => true
  | .error _ => false

instance {ε α : Type} [DecidableEq ε] [DecidableEq α] : DecidableEq (Except ε α)
  | .ok a, .ok b =>
    if h : a = b then .isTrue (by rw [h]) else .isFalse (by simp [h])
  | .error a, .error b =>
    if h : a = b then .isTrue (by rw [h]) else .isFalse (by simp [h])
  | .ok _, .error _ => .isFalse (by simp)
  | .error _, .ok _ => .isFalse (by simp)

/-- Timestamp keys of a station table, in table order. -/
def tableKeys (t : Table) : List Nat := t.map (fun r => r.1.key)

/-- The height a station table holds at a timestamp key, if any. -/
def tableLookup (t : Table) (k : Nat) : Option ℚ :=
  (t.find? (fun r => r.1.key == k)).map (fun r => r.2)

/-- Sorted union of the timestamp keys of several tables: the index of
`pd.concat(dfs, axis=1)`. -/
def unionKeys (ts : List Table) : List Nat :=
  sortByKey (fun k => k) ((ts.map tableKeys).flatten.dedup)

/-- The combined table of `main`: rows indexed by timestamp key, one
`Option ℚ` column per station (a `none` entry is pandas' `NaN` marker for a
station with no reading at that timestamp). -/
abbrev Combined := List (Nat × List (Option ℚ))

/-- Model of `pd.concat(dfs, axis=1)` (line 98): outer join on the
timestamp index. -/
def concatTables (ts : List Table) : Combined :=
  (unionKeys ts).map (fun k => (k, ts.map (fun t => tableLookup t k)))

/-- Observable console/chart events of `main`. -/
inductive Event
  | fetching (name stationId : String)
  | skipped (stationId : String)
  | noDataMsg
  | tailPrinted
  | chartShown
deriving DecidableEq, Repr

/-- The successful `(label, table)` pairs collected by `main`'s loop
(lines 83-91), in station order; a failing station contributes nothing. -/
def collectTables (stationList : List (String × String))
    (fetch : String → Except FetchError Table) : List (String × Table) :=
  stationList.filterMap (fun p =>
    match fetch p.2 with
    | .ok t => some (p.1, t)
    | .error _ => none)

/-- The console events printed by `main`'s loop: a `fetching` line per
station, plus a `skipped` line for each failing station (line 91). -/
def stationLog (stationList : List (String × String))
    (fetch : String → Except FetchError Table) : List Event :=
  stationList.flatMap (fun p =>
    Event.fetching p.1 p.2 ::
      (match fetch p.2 with
       | .ok _ => []
       | .error _ => [Event.skipped p.2]))

/-- The body of `main` (lines 83-112), given the per-station fetch outcome: collect the
successful tables; with none, print the no-data message and stop; otherwise
print the tail and render the combined chart. -/
def runMain (stationList : List (String × String))
    (fetch : String → Except FetchError Table) : List Event × Option Combined :=
  let dfs := collectTables stationList fetch
  let log := stationLog stationList fetch
  if dfs.isEmpty then (log ++ [Event.noDataMsg], none)
  else (log ++ [Event.tailPrinted, Event.chartShown],
        some (concatTables (dfs.map (fun p => p.2))))

/-- The configured station map (lines 71-77), in insertion order. -/
def stations : List (String × String) :=
  [("Kamchatka (21416)", "21416"),
   ("Tokyo SE (21413)", "21413"),
   ("Adak AK (21414)", "21414"),
   ("California W (46402)", "46402"),
   ("Attu AK (21415)", "21415")]

/-- The tokens of a line match a known record shape (the Case A or Case B
guard of lines 40 and 45). -/
def recordShape (parts : List (List Char)) : Bool :=
  match parts.head? with
  | none => false
  | some p0 =>
    (isDigits14 p0 && decide (2 ≤ parts.length)) ||
    (decide (7 ≤ parts.length) && (parts.take 6).all isDigitsNE)

/-- The token the source passes to `float` on a shape-matching line:
`parts[1]` under the Case A guard, `parts[6]` under the Case B guard. -/
def heightTokenOf (parts : List (List Char)) : List Char :=
  match parts.head? with
  | some p0 =>
    if isDigits14 p0 = true ∧ 2 ≤ parts.length then
      match parts[1]? with
      | some p1 => p1
      | none => []
    else
      match parts[6]? with
      | some p6 => p6
      | none => []
  | none => []

/-- The timestamp conversion the source applies on a shape-matching line:
`to_datetime(parts[0])` under the Case A guard, else the split-field
conversion of `parts[0:6]`. -/
def tsOfShape (parts : List (List Char)) : Option DateTime :=
  match parts.head? with
  | some p0 =>
    if isDigits14 p0 = true ∧ 2 ≤ parts.length then toDatetime14 p0
    else toDatetimeSplit (parts.take 6)
  | none => none

/-- Whether a line outcome is a raised exception (aborting the station's
parse). -/
def lineRaises (o : LineOutcome) : Bool :=
  match o with
  | .tsErr => true
  | .heightErr => true
  | .indexErr => true
  | _ => false

/-- Whether a line outcome is an out-of-bounds token access. -/
def isIndexErr (o : LineOutcome) : Bool :=
  match o with
  | .indexErr => true
  | _ => false

/-! ### Lemmas about the string utilities -/

theorem splitBy_ne_nil (p : Char → Bool) : ∀ s, splitBy p s ≠ []
  | [] => by simp [splitBy]
  | c :: cs => by
    unfold splitBy
    split
    · simp
    · match h : splitBy p cs with
      | [] => exact absurd h (splitBy_ne_nil p cs)
      | g :: gs => simp

theorem tokenize_cons_of_not_white {c : Char} (cs : List Char)
    (hc : pyWhite c = false) :
    ∃ g tl, tokenize (c :: cs) = (c :: g) :: tl := by
  unfold tokenize splitBy
  rw [hc]
  simp only [Bool.false_eq_true, if_false]
  match h : splitBy pyWhite cs with
  | [] => exact absurd h (splitBy_ne_nil pyWhite cs)
  | g :: gs =>
    refine ⟨g, (gs.filter (fun t => !t.isEmpty)), ?_⟩
    simp [List.filter_cons]

theorem lstrip_head_not_white {s : List Char} {c : Char} {rest : List Char}
    (h : lstrip s = c :: rest) : pyWhite c = false := by
  have := List.head?_dropWhile_not pyWhite s
  rw [lstrip] at h
  rw [h] at this
  simpa using this

theorem rstrip_isPrefix (t : List Char) : rstrip t <+: t := by
  have h1 : t.reverse.dropWhile pyWhite <:+ t.reverse :=
    List.dropWhile_suffix pyWhite
  have h2 : (t.reverse.dropWhile pyWhite).reverse <+: t.reverse.reverse :=
    List.reverse_prefix.mpr h1
  rw [List.reverse_reverse] at h2
  exact h2

theorem pyStrip_head_not_white {s : List Char} {c : Char} {rest : List Char}
    (h : pyStrip s = c :: rest) : pyWhite c = false := by
  rw [pyStrip] at h
  obtain ⟨tail, htail⟩ := rstrip_isPrefix (lstrip s)
  rw [h] at htail
  exact lstrip_head_not_white htail.symm

theorem tokenize_pyStrip_ne_nil {s : List Char} {c : Char} {rest : List Char}
    (h : pyStrip s = c :: rest) : tokenize (c :: rest) ≠ [] := by
  obtain ⟨g, tl, hg⟩ := tokenize_cons_of_not_white rest (pyStrip_head_not_white h)
  simp [hg]

/-! ### Lemmas about the line classifier -/

theorem tokenize_nil : tokenize [] = [] := rfl

theorem parseLine_of_shape {raw p0 : List Char}
    (h0 : (tokenize (pyStrip raw)).head? = some p0)
    (hdig : p0.all Char.isDigit = true) :
    parseLine raw =
      if isDigits14 p0 = true ∧ 2 ≤ (tokenize (pyStrip raw)).length then
        caseA (tokenize (pyStrip raw))
      else if 7 ≤ (tokenize (pyStrip raw)).length ∧
              ((tokenize (pyStrip raw)).take 6).all isDigitsNE = true then
        caseB (tokenize (pyStrip raw))
      else .skip := by
  match hps : pyStrip raw with
  | [] => rw [hps] at h0; simp [tokenize_nil] at h0
  | c :: rest =>
    rw [hps] at h0
    obtain ⟨g, tl, hg⟩ :=
      tokenize_cons_of_not_white rest (pyStrip_head_not_white hps)
    have hp0 : p0 = c :: g := by rw [hg] at h0; simpa using h0.symm
    have hcdig : Char.isDigit c = true := by
      rw [hp0] at hdig
      exact (List.all_cons .. ▸ hdig : (Char.isDigit c && g.all Char.isDigit) = true)
        |> Bool.and_elim_left
    have hch : ¬ (c = '#') := by
      intro hEq
      rw [hEq] at hcdig
      exact absurd hcdig (by decide)
    simp only [parseLine, hps]
    rw [if_neg hch, h0]

theorem caseA_not_indexErr {parts : List (List Char)} {p0 p1 : List Char}
    (h0 : parts.head? = some p0) (h1 : parts[1]? = some p1) :
    isIndexErr (caseA parts) = false := by
  simp only [caseA, h0, h1]
  cases htd : toDatetime14 p0 with
  | none => rfl
  | some ts =>
    cases hpf : pyFloat p1 with
    | none => rfl
    | some h => rfl

theorem caseB_not_indexErr {parts : List (List Char)} {p6 : List Char}
    (h6 : parts[6]? = some p6) :
    isIndexErr (caseB parts) = false := by
  simp only [caseB, h6]
  cases htd : toDatetimeSplit (parts.take 6) with
  | none => rfl
  | some ts =>
    cases hpf : pyFloat p6 with
    | none => rfl
    | some h => rfl

theorem caseA_raises_of_badHeight {parts : List (List Char)} {p0 p1 : List Char}
    (h0 : parts.head? = some p0) (h1 : parts[1]? = some p1)
    (hpf : pyFloat p1 = none) :
    caseA parts = .tsErr ∨ caseA parts = .heightErr := by
  simp only [caseA, h0, h1]
  cases htd : toDatetime14 p0 with
  | none => left; rfl
  | some ts => right; rw [hpf]

theorem caseB_raises_of_badHeight {parts : List (List Char)} {p6 : List Char}
    (h6 : parts[6]? = some p6) (hpf : pyFloat p6 = none) :
    caseB parts = .tsErr ∨ caseB parts = .heightErr := by
  simp only [caseB, h6]
  cases htd : toDatetimeSplit (parts.take 6) with
  | none => left; rfl
  | some ts => right; rw [hpf]

theorem caseA_tsErr {parts : List (List Char)} {p0 p1 : List Char}
    (h0 : parts.head? = some p0) (h1 : parts[1]? = some p1)
    (htd : toDatetime14 p0 = none) :
    caseA parts = .tsErr := by
  simp only [caseA, h0, h1, htd]

theorem caseB_tsErr {parts : List (List Char)} {p6 : List Char}
    (h6 : parts[6]? = some p6)
    (htd : toDatetimeSplit (parts.take 6) = none) :
    caseB parts = .tsErr := by
  simp only [caseB, h6, htd]

/-! ### Lemmas about the record-collection loop -/

theorem parseLines_ok_no_raise {ls : List (List Char)}
    {r : List (DateTime × ℚ)} (h : parseLines ls = .ok r) :
    ∀ l ∈ ls, lineRaises (parseLine l) = false := by
  induction ls generalizing r with
  | nil => intro l hl; simp at hl
  | cons a as ih =>
    intro l hl
    rw [parseLines] at h
    rcases List.mem_cons.mp hl with rfl | hmem
    · cases ho : parseLine l with
      | skip => simp [lineRaises]
      | record ts hgt => simp [lineRaises]
      | tsErr => rw [ho] at h; exact absurd h (by simp)
      | heightErr => rw [ho] at h; exact absurd h (by simp)
      | indexErr => rw [ho] at h; exact absurd h (by simp)
    · cases ho : parseLine a with
      | skip => rw [ho] at h; exact ih h l hmem
      | record ts hgt =>
        rw [ho] at h
        cases hp : parseLines as with
        | ok r2 => exact ih hp l hmem
        | error e => rw [hp] at h; exact absurd h (by simp)
      | tsErr => rw [ho] at h; exact absurd h (by simp)
      | heightErr => rw [ho] at h; exact absurd h (by simp)
      | indexErr => rw [ho] at h; exact absurd h (by simp)

theorem parseLines_all_skip {ls : List (List Char)}
    (h : ∀ l ∈ ls, parseLine l = .skip) : parseLines ls = .ok [] := by
  induction ls with
  | nil => rfl
  | cons a as ih =>
    rw [parseLines, h a (List.mem_cons_self a as)]
    exact ih (fun l hl => h l (List.mem_cons_of_mem a hl))

theorem fetch_ok_elim {st text : String} {tbl : Table}
    (h : fetch_dart_data st text = .ok tbl) :
    ∃ recs, parseLines (splitlines text.toList) = .ok recs ∧
      recs ≠ [] ∧ tbl = buildTable recs := by
  rw [fetch_dart_data] at h
  cases hp : parseLines (splitlines text.toList) with
  | error e => rw [hp] at h; exact absurd h (by simp)
  | ok recs =>
    rw [hp] at h
    dsimp only at h
    by_cases he : recs.isEmpty
    · rw [if_pos he] at h; exact absurd h (by simp)
    · rw [if_neg he] at h
      refine ⟨recs, rfl, by simpa using he, ?_⟩
      injection h with h2
      exact h2.symm

theorem fetch_not_ok_of_raise {st text : String} {line : List Char}
    (hmem : line ∈ splitlines text.toList)
    (hr : lineRaises (parseLine line) = true) :
    exceptIsOk (fetch_dart_data st text) = false := by
  rw [fetch_dart_data]
  cases hp : parseLines (splitlines text.toList) with
  | error e => rfl
  | ok recs =>
    have hfalse := parseLines_ok_no_raise hp line hmem
    rw [hfalse] at hr
    exact absurd hr (by simp)

/-! ### Lemmas about sorting and deduplication -/

theorem find?_eq_head?_filter {α : Type} (p : α → Bool) :
    ∀ l : List α, l.find? p = (l.filter p).head?
  | [] => rfl
  | a :: as => by
    by_cases h : p a
    · rw [List.find?_cons_of_pos as h, List.filter_cons_of_pos h]
      rfl
    · rw [List.find?_cons_of_neg as h, List.filter_cons_of_neg h]
      exact find?_eq_head?_filter p as

theorem filter_insertByKey {α : Type} (key : α → Nat) (k : Nat) (r : α) :
    ∀ l : List α,
      (insertByKey key r l).filter (fun x => key x == k) =
        if key r == k then r :: l.filter (fun x => key x == k)
        else l.filter (fun x => key x == k)
  | [] => by
    by_cases h : (key r == k) = true <;>
      simp [insertByKey, List.filter, h]
  | x :: xs => by
    rw [insertByKey]
    by_cases hle : key r ≤ key x
    · rw [if_pos hle]
      by_cases h : (key r == k) = true
      · rw [if_pos h, @List.filter_cons_of_pos _ (fun x => key x == k) r (x :: xs) h]
      · rw [if_neg h, @List.filter_cons_of_neg _ (fun x => key x == k) r (x :: xs) h]
    · rw [if_neg hle]
      have hlt : key x < key r := by omega
      by_cases hx : (key x == k) = true
      · have hxk : key x = k := by simpa using hx
        by_cases h : (key r == k) = true
        · have hrk : key r = k := by simpa using h
          omega
        · rw [if_neg h,
              @List.filter_cons_of_pos _ (fun x => key x == k) x (insertByKey key r xs) hx,
              @List.filter_cons_of_pos _ (fun x => key x == k) x xs hx,
              filter_insertByKey key k r xs, if_neg h]
      · rw [@List.filter_cons_of_neg _ (fun x => key x == k) x (insertByKey key r xs) hx,
            filter_insertByKey key k r xs]
        by_cases h : (key r == k) = true
        · rw [if_pos h, if_pos h,
              @List.filter_cons_of_neg _ (fun x => key x == k) x xs hx]
        · rw [if_neg h, if_neg h,
              @List.filter_cons_of_neg _ (fun x => key x == k) x xs hx]

theorem filter_sortByKey {α : Type} (key : α → Nat) (k : Nat) :
    ∀ l : List α,
      (sortByKey key l).filter (fun x => key x == k) =
        l.filter (fun x => key x == k)
  | [] => rfl
  | a :: as => by
    have hfold : sortByKey key (a :: as) = insertByKey key a (sortByKey key as) :=
      rfl
    rw [hfold, filter_insertByKey]
    by_cases h : (key a == k) = true
    · rw [if_pos h, filter_sortByKey key k as,
          @List.filter_cons_of_pos _ (fun x => key x == k) a as h]
    · rw [if_neg h, filter_sortByKey key k as,
          @List.filter_cons_of_neg _ (fun x => key x == k) a as h]

theorem find?_dropDupAux (k : Nat) :
    ∀ (l : Table) (seen : List Nat),
      (dropDupAux seen l).find? (fun r => r.1.key == k) =
        if k ∈ seen then none else l.find? (fun r => r.1.key == k)
  | [], seen => by by_cases h : k ∈ seen <;> simp [dropDupAux, h]
  | (ts, hgt) :: rest, seen => by
    rw [dropDupAux]
    by_cases hseen : ts.key ∈ seen
    · rw [if_pos hseen, find?_dropDupAux k rest seen]
      by_cases hk : k ∈ seen
      · rw [if_pos hk, if_pos hk]
      · have hne : ¬ ((ts, hgt).1.key == k) = true := by
          simp only [beq_iff_eq]
          intro hEq
          rw [hEq] at hseen
          exact hk hseen
        rw [if_neg hk, if_neg hk,
            @List.find?_cons_of_neg _ (fun r => r.1.key == k) (ts, hgt) rest hne]
    · rw [if_neg hseen]
      by_cases hk2 : ((ts, hgt).1.key == k) = true
      · have hkk : ts.key = k := by simpa using hk2
        have hknot : k ∉ seen := by rw [← hkk]; exact hseen
        rw [@List.find?_cons_of_pos _ (fun r => r.1.key == k) (ts, hgt)
              (dropDupAux (ts.key :: seen) rest) hk2,
            if_neg hknot,
            @List.find?_cons_of_pos _ (fun r => r.1.key == k) (ts, hgt) rest hk2]
      · have hkne : k ≠ ts.key := by
          intro hEq
          exact hk2 (by simp [hEq])
        rw [@List.find?_cons_of_neg _ (fun r => r.1.key == k) (ts, hgt)
              (dropDupAux (ts.key :: seen) rest) hk2,
            find?_dropDupAux k rest (ts.key :: seen)]
        by_cases hk : k ∈ seen
        · rw [if_pos (List.mem_cons_of_mem _ hk), if_pos hk]
        · have : k ∉ ts.key :: seen := by
            intro hmem
            rcases List.mem_cons.mp hmem with hEq | hmem2
            · exact hkne hEq
            · exact hk hmem2
          rw [if_neg this, if_neg hk,
              @List.find?_cons_of_neg _ (fun r => r.1.key == k) (ts, hgt) rest hk2]

theorem countP_dropDupAux (k : Nat) :
    ∀ (l : Table) (seen : List Nat),
      (k ∈ seen → (dropDupAux seen l).countP (fun r => r.1.key == k) = 0) ∧
      (dropDupAux seen l).countP (fun r => r.1.key == k) ≤ 1
  | [], seen => by simp [dropDupAux]
  | (ts, hgt) :: rest, seen => by
    rw [dropDupAux]
    by_cases hseen : ts.key ∈ seen
    · rw [if_pos hseen]
      exact countP_dropDupAux k rest seen
    · rw [if_neg hseen]
      obtain ⟨ih0, ih1⟩ := countP_dropDupAux k rest (ts.key :: seen)
      by_cases hk2 : ((ts, hgt).1.key == k) = true
      · have hkk : ts.key = k := by simpa using hk2
        constructor
        · intro hk
          rw [← hkk] at hk
          exact absurd hk hseen
        · rw [@List.countP_cons_of_pos _ (fun r => r.1.key == k) (ts, hgt)
                (dropDupAux (ts.key :: seen) rest) hk2]
          have h0 : (dropDupAux (ts.key :: seen) rest).countP
              (fun r => r.1.key == k) = 0 :=
            ih0 (by rw [← hkk]; exact List.mem_cons_self _ _)
          omega
      · constructor
        · intro hk
          rw [@List.countP_cons_of_neg _ (fun r => r.1.key == k) (ts, hgt)
                (dropDupAux (ts.key :: seen) rest) hk2]
          exact ih0 (List.mem_cons_of_mem _ hk)
        · rw [@List.countP_cons_of_neg _ (fun r => r.1.key == k) (ts, hgt)
                (dropDupAux (ts.key :: seen) rest) hk2]
          exact ih1

/-! ### Lemmas about the outer join -/

theorem mem_insertByKey {α : Type} (key : α → Nat) (r x : α) :
    ∀ l : List α, x ∈ insertByKey key r l ↔ x = r ∨ x ∈ l
  | [] => by simp [insertByKey]
  | y :: ys => by
    rw [insertByKey]
    by_cases hle : key r ≤ key y
    · rw [if_pos hle]
      simp [List.mem_cons]
    · rw [if_neg hle]
      simp only [List.mem_cons, mem_insertByKey key r x ys]
      tauto

theorem mem_sortByKey {α : Type} (key : α → Nat) (x : α) :
    ∀ l : List α, x ∈ sortByKey key l ↔ x ∈ l
  | [] => Iff.rfl
  | a :: as => by
    have hfold : sortByKey key (a :: as) = insertByKey key a (sortByKey key as) :=
      rfl
    rw [hfold, mem_insertByKey, mem_sortByKey key x as]
    simp [List.mem_cons]

theorem mem_unionKeys {k : Nat} {ts : List Table} :
    k ∈ unionKeys ts ↔ ∃ t ∈ ts, k ∈ tableKeys t := by
  rw [unionKeys, mem_sortByKey]
  simp [List.mem_dedup, List.mem_flatten, List.mem_map]

theorem find?_map_key {β : Type} (k : Nat) (g : Nat → β) :
    ∀ ks : List Nat, k ∈ ks →
      (ks.map (fun x => (x, g x))).find? (fun r => r.1 == k) = some (k, g k)
  | [], h => absurd h (List.not_mem_nil k)
  | a :: ks, h => by
    rw [List.map_cons]
    by_cases ha : (a == k) = true
    · have hak : a = k := by simpa using ha
      subst hak
      rw [@List.find?_cons_of_pos _ (fun r => r.1 == a) (a, g a)
            (ks.map (fun x => (x, g x))) (by simp)]
    · rw [@List.find?_cons_of_neg _ (fun r => r.1 == k) (a, g a)
            (ks.map (fun x => (x, g x))) (by simpa using ha)]
      have hmem : k ∈ ks := by
        rcases List.mem_cons.mp h with hEq | hm
        · exact absurd hEq.symm (by simpa using ha)
        · exact hm
      exact find?_map_key k g ks hmem

theorem find?_map_key_none {β : Type} (k : Nat) (g : Nat → β)
    (ks : List Nat) (h : k ∉ ks) :
    (ks.map (fun x => (x, g x))).find? (fun r => r.1 == k) = none := by
  rw [List.find?_eq_none]
  intro x hx
  simp only [List.mem_map] at hx
  obtain ⟨a, ha, rfl⟩ := hx
  simp only [beq_iff_eq]
  intro hEq
  exact h (hEq ▸ ha)

theorem tableLookup_eq_none {t : Table} {k : Nat} :
    tableLookup t k = none ↔ k ∉ tableKeys t := by
  rw [tableLookup, tableKeys]
  constructor
  · intro h hmem
    simp only [List.mem_map] at hmem
    obtain ⟨r, hr, hrk⟩ := hmem
    rw [Option.map_eq_none'] at h
    rw [List.find?_eq_none] at h
    exact h r hr (by simpa using hrk)
  · intro h
    rw [Option.map_eq_none', List.find?_eq_none]
    intro r hr hp
    exact h (List.mem_map.mpr ⟨r, hr, by simpa using hp⟩)

/-! ### Lemmas about the orchestrator -/

theorem collectTables_append (l₁ l₂ : List (String × String))
    (f : String → Except FetchError Table) :
    collectTables (l₁ ++ l₂) f = collectTables l₁ f ++ collectTables l₂ f := by
  simp [collectTables, List.filterMap_append]

theorem collectTables_nil_iff {sts : List (String × String)}
    {f : String → Except FetchError Table} :
    collectTables sts f = [] ↔ ∀ p ∈ sts, exceptIsOk (f p.2) = false := by
  rw [collectTables, List.filterMap_eq_nil_iff]
  constructor
  · intro h p hp
    have hpp := h p hp
    cases hf : f p.2 with
    | ok t => rw [hf] at hpp; simp at hpp
    | error e => rfl
  · intro h p hp
    have hpp := h p hp
    cases hf : f p.2 with
    | ok t => rw [hf] at hpp; exact absurd hpp (by simp [exceptIsOk])
    | error e => rfl

theorem stationLog_mem_cases {sts : List (String × String)}
    {f : String → Except FetchError Table} {e : Event}
    (h : e ∈ stationLog sts f) :
    (∃ p ∈ sts, e = Event.fetching p.1 p.2) ∨
    (∃ p ∈ sts, e = Event.skipped p.2) := by
  rw [stationLog] at h
  simp only [List.mem_flatMap] at h
  obtain ⟨p, hp, hmem⟩ := h
  rcases List.mem_cons.mp hmem with rfl | h2
  · left; exact ⟨p, hp, rfl⟩
  · right
    cases hf : f p.2 with
    | ok t => rw [hf] at h2; simp at h2
    | error er =>
      rw [hf] at h2
      rw [List.mem_singleton] at h2
      subst h2
      exact ⟨p, hp, rfl⟩

theorem skipped_mem_stationLog {pre post : List (String × String)}
    {name sid : String} {f : String → Except FetchError Table}
    (hf : exceptIsOk (f sid) = false) :
    Event.skipped sid ∈ stationLog (pre ++ (name, sid) :: post) f := by
  rw [stationLog]
  simp only [List.mem_flatMap]
  refine ⟨(name, sid), by simp, ?_⟩
  cases hfe : f sid with
  | ok t => rw [hfe] at hf; exact absurd hf (by simp [exceptIsOk])
  | error e => simp [hfe]

theorem caseA_record {parts : List (List Char)} {p0 p1 : List Char}
    {ts : DateTime} {hgt : ℚ}
    (h0 : parts.head? = some p0) (h1 : parts[1]? = some p1)
    (htd : toDatetime14 p0 = some ts) (hpf : pyFloat p1 = some hgt) :
    caseA parts = .record ts hgt := by
  simp only [caseA, h0, h1, htd, hpf]

/-! ### The claims -/

/-- Claim C9: the parser's token-list indexing is always in bounds —
`parts[0]` is only read on a non-blank line, `parts[1]` only under the
`len(parts) >= 2` guard and `parts[6]` only under the `len(parts) >= 7`
guard, so the classification loop can never take the out-of-bounds
outcome. -/
theorem claim_C9 (raw : List Char) : isIndexErr (parseLine raw) = false := by
  match hps : pyStrip raw with
  | [] => simp [parseLine, hps, isIndexErr]
  | c :: rest =>
    by_cases hc : c = '#'
    · simp [parseLine, hps, hc, isIndexErr]
    · obtain ⟨g, tl, hg⟩ :=
        tokenize_cons_of_not_white rest (pyStrip_head_not_white hps)
      simp only [parseLine, hps]
      rw [if_neg hc, hg]
      simp only [List.head?_cons]
      by_cases hA : isDigits14 (c :: g) = true ∧ 2 ≤ ((c :: g) :: tl).length
      · rw [if_pos hA]
        obtain ⟨hdig, hlen⟩ := hA
        cases tl with
        | nil => simp at hlen
        | cons p1 t =>
          have h0 : ((c :: g) :: p1 :: t).head? = some (c :: g) := rfl
          have h1 : ((c :: g) :: p1 :: t)[1]? = some p1 := by simp
          exact caseA_not_indexErr h0 h1
      · rw [if_neg hA]
        by_cases hB : 7 ≤ ((c :: g) :: tl).length ∧
            (((c :: g) :: tl).take 6).all isDigitsNE = true
        · rw [if_pos hB]
          obtain ⟨hlen7, hdig6⟩ := hB
          cases h6 : ((c :: g) :: tl)[6]? with
          | none =>
            rw [List.getElem?_eq_none_iff] at h6
            omega
          | some p6 => exact caseB_not_indexErr h6
        · rw [if_neg hB]
          rfl

/-- Claim C2: classification is top-to-bottom with first match winning — a
line whose first whitespace-token is exactly 14 decimal digits and which
also has the Case-B shape (at least 7 tokens, first 6 all digits) is
handled by Case A: the timestamp is read from token 1 as `YYYYMMDDHHMMSS`
and the height from token 2. -/
theorem claim_C2 (raw p0 : List Char)
    (h0 : (tokenize (pyStrip raw)).head? = some p0)
    (hA : isDigits14 p0 = true)
    (hB7 : 7 ≤ (tokenize (pyStrip raw)).length)
    (hB6 : ((tokenize (pyStrip raw)).take 6).all isDigitsNE = true) :
    parseLine raw = caseA (tokenize (pyStrip raw)) ∧
    (∀ p1, (tokenize (pyStrip raw))[1]? = some p1 →
      ∀ ts hgt, toDatetime14 p0 = some ts → pyFloat p1 = some hgt →
        parseLine raw = .record ts hgt) := by
  have hdig : p0.all Char.isDigit = true := by
    rw [isDigits14] at hA
    exact Bool.and_elim_right hA
  have hArw : parseLine raw = caseA (tokenize (pyStrip raw)) := by
    rw [parseLine_of_shape h0 hdig, if_pos ⟨hA, by omega⟩]
  refine ⟨hArw, ?_⟩
  intro p1 h1 ts hgt htd hpf
  rw [hArw]
  exact caseA_record h0 h1 htd hpf

/-- Witness for claim C2 on the concrete line
`"20250729120000 1 2 3 4 5 6.5"`, which satisfies both guards. -/
theorem claim_C2_witness :
    parseLine "20250729120000 1 2 3 4 5 6.5".toList =
      caseA (tokenize (pyStrip "20250729120000 1 2 3 4 5 6.5".toList)) ∧
    parseLine "20250729120000 1 2 3 4 5 6.5".toList =
      .record ⟨2025, 7, 29, 12, 0, 0⟩ (mkRat 1 1) := by
  have h := claim_C2 ("20250729120000 1 2 3 4 5 6.5".toList)
      ("20250729120000".toList) (by decide) (by decide) (by decide) (by decide)
  refine ⟨h.1, ?_⟩
  exact h.2 ("1".toList) (by decide) ⟨2025, 7, 29, 12, 0, 0⟩ (mkRat 1 1)
    (by decide) (by decide)

/-- Claim C3: a line that matches a known record shape but whose height
token does not parse as a float makes the whole station fetch fail — no
per-line recovery, and no table is returned, not even from the remaining
well-formed lines. -/
theorem claim_C3 (stationId respText : String) (line : List Char)
    (hmem : line ∈ splitlines respText.toList)
    (hshape : recordShape (tokenize (pyStrip line)) = true)
    (hheight : pyFloat (heightTokenOf (tokenize (pyStrip line))) = none) :
    exceptIsOk (fetch_dart_data stationId respText) = false := by
  apply fetch_not_ok_of_raise hmem
  cases h0 : (tokenize (pyStrip line)).head? with
  | none =>
    simp only [recordShape, h0] at hshape
    exact absurd hshape Bool.false_ne_true
  | some p0 =>
    simp only [recordShape, h0, Bool.or_eq_true, Bool.and_eq_true,
      decide_eq_true_eq] at hshape
    obtain ⟨ptl, hpl⟩ : ∃ ptl, tokenize (pyStrip line) = p0 :: ptl := by
      cases hl : tokenize (pyStrip line) with
      | nil => rw [hl] at h0; simp at h0
      | cons q qs =>
        rw [hl] at h0
        simp only [List.head?_cons, Option.some.injEq] at h0
        exact ⟨qs, by rw [h0]⟩
    by_cases hA : isDigits14 p0 = true ∧ 2 ≤ (tokenize (pyStrip line)).length
    · obtain ⟨hA1, hA2⟩ := hA
      have hdig : p0.all Char.isDigit = true := by
        rw [isDigits14] at hA1
        exact Bool.and_elim_right hA1
      cases h1 : (tokenize (pyStrip line))[1]? with
      | none =>
        rw [List.getElem?_eq_none_iff] at h1
        omega
      | some p1 =>
        have hht : heightTokenOf (tokenize (pyStrip line)) = p1 := by
          simp only [heightTokenOf, h0, h1]
          rw [if_pos ⟨hA1, hA2⟩]
        rw [hht] at hheight
        rw [parseLine_of_shape h0 hdig, if_pos ⟨hA1, hA2⟩]
        rcases caseA_raises_of_badHeight h0 h1 hheight with hcs | hcs <;>
          rw [hcs] <;> rfl
    · have hB : 7 ≤ (tokenize (pyStrip line)).length ∧
          ((tokenize (pyStrip line)).take 6).all isDigitsNE = true := by
        rcases hshape with h | h
        · exact absurd h hA
        · exact h
      obtain ⟨hB1, hB2⟩ := hB
      have hdig : p0.all Char.isDigit = true := by
        rw [hpl] at hB2
        have htake : (p0 :: ptl).take 6 = p0 :: ptl.take 5 := rfl
        rw [htake, List.all_cons] at hB2
        have hp0 := Bool.and_elim_left hB2
        rw [isDigitsNE] at hp0
        exact Bool.and_elim_right hp0
      cases h6 : (tokenize (pyStrip line))[6]? with
      | none =>
        rw [List.getElem?_eq_none_iff] at h6
        omega
      | some p6 =>
        have hht : heightTokenOf (tokenize (pyStrip line)) = p6 := by
          simp only [heightTokenOf, h0, h6]
          rw [if_neg hA]
        rw [hht] at hheight
        rw [parseLine_of_shape h0 hdig, if_neg hA, if_pos ⟨hB1, hB2⟩]
        rcases caseB_raises_of_badHeight h6 hheight with hcs | hcs <;>
          rw [hcs] <;> rfl

/-- Witness for claim C3: the line `"20250729120000 abc"` matches Case A
but `float("abc")` fails, so the whole fetch fails. -/
theorem claim_C3_witness :
    exceptIsOk (fetch_dart_data "21414" "20250729120000 abc\n20250729120000 1.5") = false :=
  claim_C3 "21414" "20250729120000 abc\n20250729120000 1.5"
    "20250729120000 abc".toList (by decide) (by decide) (by decide)

/-- Claim C4: the single line `"20250729120000 1.234"` yields exactly one
reading, at 2025-07-29 12:00:00 UTC with height 1.234. -/
theorem claim_C4 :
    fetch_dart_data "21416" "20250729120000 1.234" =
      .ok [(⟨2025, 7, 29, 12, 0, 0⟩, mkRat 1234 1000)] := by
  decide

/-- Claim C5: the single line `"2025 07 29 12 00 00 1.234 extra ignored"`
yields the same single reading; the tokens beyond the 7th are ignored (the
line parses exactly as it would without them). -/
theorem claim_C5 :
    fetch_dart_data "21413" "2025 07 29 12 00 00 1.234 extra ignored" =
      .ok [(⟨2025, 7, 29, 12, 0, 0⟩, mkRat 1234 1000)] ∧
    parseLine "2025 07 29 12 00 00 1.234 extra ignored".toList =
      parseLine "2025 07 29 12 00 00 1.234".toList := by
  exact ⟨by decide, by decide⟩

/-- Claim C6: a text consisting only of blank lines and `#`-comment lines
produces the no-data error naming the station, and no table. -/
theorem claim_C6 (stationId respText : String)
    (hall : ∀ l ∈ splitlines respText.toList,
      pyStrip l = [] ∨ (pyStrip l).head? = some '#') :
    fetch_dart_data stationId respText = .error (.noData stationId) := by
  have hskip : ∀ l ∈ splitlines respText.toList, parseLine l = .skip := by
    intro l hl
    rcases hall l hl with hnil | hhash
    · simp [parseLine, hnil]
    · cases hps : pyStrip l with
      | nil => rw [hps] at hhash; simp at hhash
      | cons c rest =>
        rw [hps] at hhash
        simp only [List.head?_cons, Option.some.injEq] at hhash
        simp [parseLine, hps, hhash]
  rw [fetch_dart_data, parseLines_all_skip hskip]
  rfl

/-- Witness for claim C6 on a concrete all-comment/blank text. -/
theorem claim_C6_witness :
    fetch_dart_data "46402" "# station header\n\n   \n# end" =
      .error (.noData "46402") :=
  claim_C6 "46402" "# station header\n\n   \n# end" (by decide)

/-- Claim C10: a shape-matching line whose digit fields do not encode a
valid calendar date-time is not silently skipped — the timestamp conversion
raises and the station's whole parse fails; the orchestrator then logs the
failed station and continues with the remaining stations. -/
theorem claim_C10 :
    (∀ (stationId respText : String) (line : List Char),
        line ∈ splitlines respText.toList →
        recordShape (tokenize (pyStrip line)) = true →
        tsOfShape (tokenize (pyStrip line)) = none →
        exceptIsOk (fetch_dart_data stationId respText) = false) ∧
    (∀ (pre post : List (String × String)) (name sid : String)
        (f : String → Except FetchError Table),
        exceptIsOk (f sid) = false →
        collectTables (pre ++ (name, sid) :: post) f =
          collectTables pre f ++ collectTables post f ∧
        Event.skipped sid ∈ stationLog (pre ++ (name, sid) :: post) f) := by
  constructor
  · intro stationId respText line hmem hshape hts
    apply fetch_not_ok_of_raise hmem
    cases h0 : (tokenize (pyStrip line)).head? with
    | none =>
      simp only [recordShape, h0] at hshape
      exact absurd hshape Bool.false_ne_true
    | some p0 =>
      simp only [recordShape, h0, Bool.or_eq_true, Bool.and_eq_true,
        decide_eq_true_eq] at hshape
      obtain ⟨ptl, hpl⟩ : ∃ ptl, tokenize (pyStrip line) = p0 :: ptl := by
        cases hl : tokenize (pyStrip line) with
        | nil => rw [hl] at h0; simp at h0
        | cons q qs =>
          rw [hl] at h0
          simp only [List.head?_cons, Option.some.injEq] at h0
          exact ⟨qs, by rw [h0]⟩
      by_cases hA : isDigits14 p0 = true ∧ 2 ≤ (tokenize (pyStrip line)).length
      · obtain ⟨hA1, hA2⟩ := hA
        have hdig : p0.all Char.isDigit = true := by
          rw [isDigits14] at hA1
          exact Bool.and_elim_right hA1
        have htd : toDatetime14 p0 = none := by
          simp only [tsOfShape, h0] at hts
          rw [if_pos ⟨hA1, hA2⟩] at hts
          exact hts
        cases h1 : (tokenize (pyStrip line))[1]? with
        | none =>
          rw [List.getElem?_eq_none_iff] at h1
          omega
        | some p1 =>
          rw [parseLine_of_shape h0 hdig, if_pos ⟨hA1, hA2⟩,
              caseA_tsErr h0 h1 htd]
          rfl
      · have hB : 7 ≤ (tokenize (pyStrip line)).length ∧
            ((tokenize (pyStrip line)).take 6).all isDigitsNE = true := by
          rcases hshape with h | h
          · exact absurd h hA
          · exact h
        obtain ⟨hB1, hB2⟩ := hB
        have hdig : p0.all Char.isDigit = true := by
          rw [hpl] at hB2
          have htake : (p0 :: ptl).take 6 = p0 :: ptl.take 5 := rfl
          rw [htake, List.all_cons] at hB2
          have hp0 := Bool.and_elim_left hB2
          rw [isDigitsNE] at hp0
          exact Bool.and_elim_right hp0
        have htd : toDatetimeSplit ((tokenize (pyStrip line)).take 6) = none := by
          simp only [tsOfShape, h0] at hts
          rw [if_neg hA] at hts
          exact hts
        cases h6 : (tokenize (pyStrip line))[6]? with
        | none =>
          rw [List.getElem?_eq_none_iff] at h6
          omega
        | some p6 =>
          rw [parseLine_of_shape h0 hdig, if_neg hA, if_pos ⟨hB1, hB2⟩,
              caseB_tsErr h6 htd]
          rfl
  · intro pre post name sid f hf
    constructor
    · rw [collectTables_append]
      have hcons : collectTables ((name, sid) :: post) f = collectTables post f := by
        rw [collectTables, List.filterMap_cons]
        cases hfe : f sid with
        | ok t => rw [hfe] at hf; exact absurd hf (by simp [exceptIsOk])
        | error e => rfl
      rw [hcons]
    · exact skipped_mem_stationLog hf

/-- Witness for claim C10: month 13 in a Case-A line aborts the fetch, and
a failed station is logged and skipped while the loop continues. -/
theorem claim_C10_witness :
    exceptIsOk (fetch_dart_data "21416" "20251329120000 1.5") = false ∧
    Event.skipped "21416" ∈ stationLog [("Kamchatka (21416)", "21416")]
      (fun s => Except.error (FetchError.transport 404)) := by
  constructor
  · exact claim_C10.1 "21416" "20251329120000 1.5" "20251329120000 1.5".toList
      (by decide) (by decide) (by decide)
  · exact (claim_C10.2 [] [] "Kamchatka (21416)" "21416"
      (fun s => Except.error (FetchError.transport 404)) rfl).2

/-- Claim C7: the outer join of two station tables has exactly the union of
their timestamp key sets; at a key where one station has no reading the row
is still present and that station's column holds the explicit no-value
marker. -/
theorem claim_C7 (t1 t2 : Table) (k : Nat) :
    (k ∈ (concatTables [t1, t2]).map (fun row => row.1) ↔
      k ∈ tableKeys t1 ∨ k ∈ tableKeys t2) ∧
    (k ∈ tableKeys t1 ∨ k ∈ tableKeys t2 →
      (concatTables [t1, t2]).find? (fun row => row.1 == k) =
        some (k, [tableLookup t1 k, tableLookup t2 k])) ∧
    (k ∉ tableKeys t2 → tableLookup t2 k = none) := by
  refine ⟨?_, ?_, ?_⟩
  · rw [concatTables, List.map_map]
    constructor
    · intro h
      simp only [List.mem_map, Function.comp] at h
      obtain ⟨a, ha, rfl⟩ := h
      rcases mem_unionKeys.mp ha with ⟨t, ht, hk⟩
      rcases List.mem_cons.mp ht with rfl | ht2
      · exact Or.inl hk
      · rcases List.mem_cons.mp ht2 with rfl | ht3
        · exact Or.inr hk
        · exact absurd ht3 (List.not_mem_nil t)
    · intro h
      simp only [List.mem_map, Function.comp]
      refine ⟨k, ?_, rfl⟩
      apply mem_unionKeys.mpr
      rcases h with hk | hk
      · exact ⟨t1, by simp, hk⟩
      · exact ⟨t2, by simp, hk⟩
  · intro hmem
    have hk : k ∈ unionKeys [t1, t2] := by
      apply mem_unionKeys.mpr
      rcases hmem with h | h
      · exact ⟨t1, by simp, h⟩
      · exact ⟨t2, by simp, h⟩
    have hfind := find?_map_key k
      (fun x => [tableLookup t1 x, tableLookup t2 x]) (unionKeys [t1, t2]) hk
    exact hfind
  · exact fun h => tableLookup_eq_none.mpr h

/-- Witness for claim C7: joining a one-row table with a two-row table; at
the key present only in the second table the row survives with a `none`
marker for the first station. -/
theorem claim_C7_witness :
    (concatTables [[(DateTime.mk 2025 7 29 12 0 0, mkRat 3 2)],
        [(DateTime.mk 2025 7 29 12 0 0, mkRat 2 1),
         (DateTime.mk 2025 7 29 13 0 0, mkRat 3 1)]]).find?
      (fun row => row.1 == 20250729130000) =
      some (20250729130000, [none, some (mkRat 3 1)]) := by
  have h := (claim_C7 [(DateTime.mk 2025 7 29 12 0 0, mkRat 3 2)]
      [(DateTime.mk 2025 7 29 12 0 0, mkRat 2 1),
       (DateTime.mk 2025 7 29 13 0 0, mkRat 3 1)] 20250729130000).2.1
      (by decide)
  rw [h]
  decide

/-- Claim C8: if every configured station's fetch fails, the run prints the
no-data message and stops without printing the combined tail or rendering a
chart; and this is the only condition halting the run before rendering — as
soon as one station succeeds, the chart is rendered. -/
theorem claim_C8 (stationList : List (String × String))
    (f : String → Except FetchError Table) :
    ((∀ p ∈ stationList, exceptIsOk (f p.2) = false) →
      runMain stationList f =
        (stationLog stationList f ++ [Event.noDataMsg], none) ∧
      Event.noDataMsg ∈ (runMain stationList f).1 ∧
      Event.chartShown ∉ (runMain stationList f).1 ∧
      Event.tailPrinted ∉ (runMain stationList f).1) ∧
    ((∃ p ∈ stationList, exceptIsOk (f p.2) = true) →
      (runMain stationList f).2.isSome = true ∧
      Event.chartShown ∈ (runMain stationList f).1) := by
  constructor
  · intro hall
    have hnil : collectTables stationList f = [] := collectTables_nil_iff.mpr hall
    have hrun : runMain stationList f =
        (stationLog stationList f ++ [Event.noDataMsg], none) := by
      simp [runMain, hnil]
    refine ⟨hrun, ?_, ?_, ?_⟩
    · rw [hrun]; simp
    · rw [hrun]
      intro hmemc
      rcases List.mem_append.mp hmemc with hlog | hsing
      · rcases stationLog_mem_cases hlog with ⟨p, _, hEq⟩ | ⟨p, _, hEq⟩ <;>
          simp at hEq
      · simp at hsing
    · rw [hrun]
      intro hmemc
      rcases List.mem_append.mp hmemc with hlog | hsing
      · rcases stationLog_mem_cases hlog with ⟨p, _, hEq⟩ | ⟨p, _, hEq⟩ <;>
          simp at hEq
      · simp at hsing
  · rintro ⟨p, hp, hok⟩
    have hne : collectTables stationList f ≠ [] := by
      intro hnil
      have hz := collectTables_nil_iff.mp hnil p hp
      rw [hok] at hz
      exact absurd hz (by simp)
    have hempty : (collectTables stationList f).isEmpty = false := by
      cases hcc : collectTables stationList f with
      | nil => exact absurd hcc hne
      | cons a l => rfl
    constructor
    · simp [runMain, hempty]
    · simp [runMain, hempty]

/-- Witness for claim C8 with one station whose fetch returns a transport
error. -/
theorem claim_C8_witness :
    runMain [("Adak AK (21414)", "21414")]
        (fun s => Except.error (FetchError.transport 500)) =
      (stationLog [("Adak AK (21414)", "21414")]
        (fun s => Except.error (FetchError.transport 500)) ++
          [Event.noDataMsg], none) :=
  ((claim_C8 [("Adak AK (21414)", "21414")]
      (fun s => Except.error (FetchError.transport 500))).1
    (by intro p hp; rfl)).1
